import Mathlib

/-!
Verification of the bevy_hanabi shader-variant cache, expression renderer,
spawner state machine and conform-to-sphere modifier, against the
natural-language specification.

The shader cache is embedded from `src/render/shader_cache.rs`.  The rendering
backend, the expression model, the spawner and the modifier shader code are not
part of the provided sources (only their callers are); those are modelled from
the specification, and each such definition says so in its doc comment.
-/

namespace Hanabi

/-! ## Shader cache (from `src/render/shader_cache.rs`)

`ShaderCache` holds a `HashMap<String, Handle<Shader>>`.  We model the handle
as a `Nat` identifier and the Bevy `Assets<Shader>` store as a fresh-id
allocator: `Assets::add` hands out the next unused id and records the shader's
WGSL source (`Shader::from_wgsl(source)`) under that id.  The `HashMap` is
modelled as an association list with first-match lookup and replace-on-insert,
which matches the observable lookup behaviour of the hash map. -/

/-- The Bevy `Assets<Shader>` store: a fresh-id allocator plus the backing
store of created shaders, keyed by handle id and holding the WGSL source the
shader was created from. -/
structure Assets where
  nextId : Nat
  store : List (Nat × String)
deriving Repr, DecidableEq

/-- `Assets::add(Shader::from_wgsl(source))`: allocate a fresh handle and
record the shader created from `source`. -/
def Assets.add (a : Assets) (source : String) : Nat × Assets :=
  (a.nextId, ⟨a.nextId + 1, (a.nextId, source) :: a.store⟩)

/-- First-match lookup in the association list modelling the `HashMap`. -/
def cacheLookup : List (String × Nat) → String → Option Nat
  | [], _ => none
  | (k', v) :: rest, k => if k = k' then some v else cacheLookup rest k

/-- `HashMap::insert`: the new binding replaces any existing binding of the
same key. -/
def cacheInsert (m : List (String × Nat)) (k : String) (v : Nat) :
    List (String × Nat) :=
  (k, v) :: m.filter (fun p => decide (p.1 ≠ k))

/-- `ShaderCache`: map of allocated shader resources from their baked shader
code (`cache: HashMap<String, Handle<Shader>>`). -/
structure ShaderCache where
  cache : List (String × Nat)
deriving Repr, DecidableEq

/-- `ShaderCache::get_or_insert(&mut self, source, shaders)`: if `source` is a
key of the cache, return a clone of the stored handle; otherwise allocate a
new shader resource via `shaders.add(Shader::from_wgsl(source))`, insert the
mapping, and return the new handle.  State passing makes the two `&mut`
arguments explicit. -/
def ShaderCache.get_or_insert (c : ShaderCache) (shaders : Assets)
    (source : String) : Nat × ShaderCache × Assets :=
  match cacheLookup c.cache source with
  | some handle => (handle, c, shaders)
  | none =>
    let r := shaders.add source
    (r.1, ⟨cacheInsert c.cache source r.1⟩, r.2)

/-! ### Lookup/insert lemmas -/

lemma cacheLookup_insert_self (m : List (String × Nat)) (k : String) (v : Nat) :
    cacheLookup (cacheInsert m k v) k = some v := by
  simp [cacheInsert, cacheLookup]

lemma cacheLookup_filter_ne (m : List (String × Nat)) {k k' : String}
    (h : k' ≠ k) :
    cacheLookup (m.filter (fun p => decide (p.1 ≠ k))) k' = cacheLookup m k' := by
  induction m with
  | nil => rfl
  | cons p rest ih =>
    obtain ⟨a, b⟩ := p
    by_cases hak : a = k
    · subst hak
      rw [show List.filter (fun p => decide (p.1 ≠ a)) ((a, b) :: rest)
            = List.filter (fun p => decide (p.1 ≠ a)) rest from by simp]
      rw [ih]
      simp [cacheLookup, h]
    · rw [show List.filter (fun p => decide (p.1 ≠ k)) ((a, b) :: rest)
            = (a, b) :: List.filter (fun p => decide (p.1 ≠ k)) rest from by
          simp [hak]]
      by_cases hk'a : k' = a
      · subst hk'a
        simp [cacheLookup]
      · simp only [cacheLookup, if_neg hk'a]
        exact ih

lemma cacheLookup_insert_ne (m : List (String × Nat)) {k k' : String}
    (v : Nat) (h : k' ≠ k) :
    cacheLookup (cacheInsert m k v) k' = cacheLookup m k' := by
  simp only [cacheInsert, cacheLookup, h, if_false]
  exact cacheLookup_filter_ne m h

/-- Running a sequence of `get_or_insert` operations, threading the cache and
the asset store. -/
def runAll (c : ShaderCache) (a : Assets) : List String → ShaderCache × Assets
  | [] => (c, a)
  | s :: rest => runAll (c.get_or_insert a s).2.1 (c.get_or_insert a s).2.2 rest

/-- A single `get_or_insert` preserves every existing cache entry. -/
lemma get_or_insert_preserves (c : ShaderCache) (a : Assets) (s k : String)
    (v : Nat) (h : cacheLookup c.cache k = some v) :
    cacheLookup (c.get_or_insert a s).2.1.cache k = some v := by
  cases hm : cacheLookup c.cache s with
  | some v' => simpa [ShaderCache.get_or_insert, hm] using h
  | none =>
    have hk : k ≠ s := by
      rintro rfl
      rw [h] at hm
      cases hm
    simp only [ShaderCache.get_or_insert, hm, Assets.add]
    rw [cacheLookup_insert_ne _ _ hk]
    exact h

end Hanabi

namespace Hanabi

/-- C1: with a source `s` not yet cached, calling `get_or_insert` twice with
`s` (no intervening mutation) returns the same shader handle both times, and
the backend allocation (`shaders.add`) runs exactly once across the two calls:
the allocator's `nextId` advances by exactly one. -/
theorem get_or_insert_twice_same_handle (c : ShaderCache) (a : Assets)
    (s : String) (hmiss : cacheLookup c.cache s = none) :
    ((c.get_or_insert a s).2.1.get_or_insert (c.get_or_insert a s).2.2 s).1
        = (c.get_or_insert a s).1
    ∧ ((c.get_or_insert a s).2.1.get_or_insert (c.get_or_insert a s).2.2 s).2.2.nextId
        = a.nextId + 1 := by
  simp only [ShaderCache.get_or_insert, hmiss, Assets.add]
  rw [cacheLookup_insert_self]
  exact ⟨rfl, rfl⟩

/-- Witness for C1 at a concrete empty cache and the source `"code"`. -/
theorem get_or_insert_twice_same_handle_witness :
    cacheLookup (ShaderCache.mk []).cache "code" = none
    ∧ (((ShaderCache.mk []).get_or_insert (Assets.mk 0 []) "code").2.1.get_or_insert
          ((ShaderCache.mk []).get_or_insert (Assets.mk 0 []) "code").2.2 "code").1
        = ((ShaderCache.mk []).get_or_insert (Assets.mk 0 []) "code").1
    ∧ (((ShaderCache.mk []).get_or_insert (Assets.mk 0 []) "code").2.1.get_or_insert
          ((ShaderCache.mk []).get_or_insert (Assets.mk 0 []) "code").2.2 "code").2.2.nextId
        = (Assets.mk 0 []).nextId + 1 :=
  ⟨rfl,
    (get_or_insert_twice_same_handle (ShaderCache.mk []) (Assets.mk 0 [])
      "code" rfl).1,
    (get_or_insert_twice_same_handle (ShaderCache.mk []) (Assets.mk 0 [])
      "code" rfl).2⟩

/-- C3: over any sequence of `get_or_insert` operations, every cache entry
present beforehand still maps to the same handle afterwards: no overwrite, no
eviction, the cache grows monotonically. -/
theorem cache_monotone (srcs : List String) (c : ShaderCache) (a : Assets)
    (k : String) (v : Nat) (h : cacheLookup c.cache k = some v) :
    cacheLookup (runAll c a srcs).1.cache k = some v := by
  induction srcs generalizing c a with
  | nil => exact h
  | cons s rest ih => exact ih _ _ (get_or_insert_preserves c a s k v h)

/-- Witness for C3: a pre-existing entry survives two further operations. -/
theorem cache_monotone_witness :
    cacheLookup (ShaderCache.mk [("k", 5)]).cache "k" = some 5
    ∧ cacheLookup (runAll (ShaderCache.mk [("k", 5)]) (Assets.mk 6 [])
        ["x", "k"]).1.cache "k" = some 5 :=
  ⟨rfl, cache_monotone ["x", "k"] _ _ "k" 5 rfl⟩

/-- C10: each `get_or_insert` call changes at most one mapping.  On a hit the
cache and the asset store are returned unchanged and nothing is allocated; on
a miss exactly one shader is allocated from precisely the given source text,
the cache gains exactly the binding for that source, and every other key's
binding is untouched. -/
theorem get_or_insert_frame (c : ShaderCache) (a : Assets) (s : String) :
    (∀ v, cacheLookup c.cache s = some v → c.get_or_insert a s = (v, c, a))
    ∧ (cacheLookup c.cache s = none →
        (c.get_or_insert a s).1 = a.nextId
        ∧ (c.get_or_insert a s).2.2.nextId = a.nextId + 1
        ∧ (c.get_or_insert a s).2.2.store = (a.nextId, s) :: a.store
        ∧ cacheLookup (c.get_or_insert a s).2.1.cache s = some a.nextId
        ∧ ∀ k, k ≠ s → cacheLookup (c.get_or_insert a s).2.1.cache k
            = cacheLookup c.cache k) := by
  constructor
  · intro v hv
    simp [ShaderCache.get_or_insert, hv]
  · intro hm
    refine ⟨?_, ?_, ?_, ?_, ?_⟩
    · simp [ShaderCache.get_or_insert, hm, Assets.add]
    · simp [ShaderCache.get_or_insert, hm, Assets.add]
    · simp [ShaderCache.get_or_insert, hm, Assets.add]
    · simp [ShaderCache.get_or_insert, hm, Assets.add, cacheLookup_insert_self]
    · intro k hk
      simp only [ShaderCache.get_or_insert, hm, Assets.add]
      exact cacheLookup_insert_ne _ _ hk

/-- Witness for C10: both branches exercised at concrete states. -/
theorem get_or_insert_frame_witness :
    ((ShaderCache.mk [("a", 0)]).get_or_insert (Assets.mk 1 [(0, "a")]) "a"
        = (0, ShaderCache.mk [("a", 0)], Assets.mk 1 [(0, "a")]))
    ∧ ((ShaderCache.mk [("a", 0)]).get_or_insert (Assets.mk 1 [(0, "a")]) "b").2.2.store
        = (1, "b") :: [(0, "a")]
    ∧ cacheLookup ((ShaderCache.mk [("a", 0)]).get_or_insert
        (Assets.mk 1 [(0, "a")]) "b").2.1.cache "a" = some 0 :=
  ⟨(get_or_insert_frame (ShaderCache.mk [("a", 0)]) (Assets.mk 1 [(0, "a")])
      "a").1 0 (by decide),
    ((get_or_insert_frame (ShaderCache.mk [("a", 0)]) (Assets.mk 1 [(0, "a")])
      "b").2 (by decide)).2.2.1,
    (((get_or_insert_frame (ShaderCache.mk [("a", 0)]) (Assets.mk 1 [(0, "a")])
      "b").2 (by decide)).2.2.2.2 "a" (by decide)).trans (by decide)⟩

/-- Well-formedness of a cache relative to the asset store: every cached
handle was allocated (is below `nextId`), and no two keys share a handle.
This holds for the empty cache and is preserved by `get_or_insert`, so it
holds in every reachable state. -/
def CacheWF (c : ShaderCache) (a : Assets) : Prop :=
  (∀ k v, cacheLookup c.cache k = some v → v < a.nextId)
  ∧ (∀ k₁ k₂ v, cacheLookup c.cache k₁ = some v →
      cacheLookup c.cache k₂ = some v → k₁ = k₂)

lemma cacheWF_empty (a : Assets) : CacheWF (ShaderCache.mk []) a := by
  constructor
  · intro k v h
    cases h
  · intro k₁ k₂ v h
    cases h

lemma get_or_insert_WF (c : ShaderCache) (a : Assets) (s : String)
    (hwf : CacheWF c a) :
    CacheWF (c.get_or_insert a s).2.1 (c.get_or_insert a s).2.2 := by
  obtain ⟨hbound, hinj⟩ := hwf
  cases hm : cacheLookup c.cache s with
  | some v =>
    simp only [ShaderCache.get_or_insert, hm]
    exact ⟨hbound, hinj⟩
  | none =>
    simp only [ShaderCache.get_or_insert, hm, Assets.add]
    constructor
    · intro k v h
      by_cases hk : k = s
      · subst hk
        rw [cacheLookup_insert_self] at h
        cases h
        exact Nat.lt_succ_self _
      · rw [cacheLookup_insert_ne _ _ hk] at h
        exact Nat.lt_succ_of_lt (hbound k v h)
    · intro k₁ k₂ v h₁ h₂
      by_cases hk₁ : k₁ = s <;> by_cases hk₂ : k₂ = s
      · rw [hk₁, hk₂]
      · subst hk₁
        rw [cacheLookup_insert_self] at h₁
        rw [cacheLookup_insert_ne _ _ hk₂] at h₂
        cases h₁
        exact absurd (hbound k₂ _ h₂) (lt_irrefl _)
      · subst hk₂
        rw [cacheLookup_insert_self] at h₂
        rw [cacheLookup_insert_ne _ _ hk₁] at h₁
        cases h₂
        exact absurd (hbound k₁ _ h₁) (lt_irrefl _)
      · rw [cacheLookup_insert_ne _ _ hk₁] at h₁
        rw [cacheLookup_insert_ne _ _ hk₂] at h₂
        exact hinj k₁ k₂ v h₁ h₂

/-- C4: in a well-formed cache state, `get_or_insert` with `s₁` followed by
`get_or_insert` with `s₂ ≠ s₁` returns two distinct handles. -/
theorem distinct_sources_distinct_handles (c : ShaderCache) (a : Assets)
    (s₁ s₂ : String) (hwf : CacheWF c a) (hne : s₁ ≠ s₂) :
    (c.get_or_insert a s₁).1
      ≠ ((c.get_or_insert a s₁).2.1.get_or_insert (c.get_or_insert a s₁).2.2 s₂).1 := by
  obtain ⟨hbound, hinj⟩ := hwf
  cases h₁ : cacheLookup c.cache s₁ with
  | some v₁ =>
    simp only [ShaderCache.get_or_insert, h₁]
    cases h₂ : cacheLookup c.cache s₂ with
    | some v₂ =>
      simp only
      intro hv
      exact hne (hinj s₁ s₂ v₁ h₁ (hv ▸ h₂))
    | none =>
      simp only [Assets.add]
      exact Nat.ne_of_lt (hbound s₁ v₁ h₁)
  | none =>
    simp only [ShaderCache.get_or_insert, h₁, Assets.add]
    rw [cacheLookup_insert_ne _ _ (Ne.symm hne)]
    cases h₂ : cacheLookup c.cache s₂ with
    | some v₂ =>
      simp only
      intro hv
      exact absurd (hbound s₂ v₂ h₂) (hv ▸ lt_irrefl _)
    | none =>
      simp only
      exact Nat.ne_of_lt (Nat.lt_succ_self _)

/-- Witness for C4: from the empty well-formed state, `"a"` then `"b"` get
distinct handles. -/
theorem distinct_sources_distinct_handles_witness :
    CacheWF (ShaderCache.mk []) (Assets.mk 0 []) ∧ ("a" : String) ≠ "b"
    ∧ ((ShaderCache.mk []).get_or_insert (Assets.mk 0 []) "a").1
      ≠ (((ShaderCache.mk []).get_or_insert (Assets.mk 0 []) "a").2.1.get_or_insert
          ((ShaderCache.mk []).get_or_insert (Assets.mk 0 []) "a").2.2 "b").1 :=
  ⟨cacheWF_empty _, by decide,
    distinct_sources_distinct_handles (ShaderCache.mk []) (Assets.mk 0 [])
      "a" "b" (cacheWF_empty _) (by decide)⟩

/-! ## Fallible backend (spec §6)

The rendering backend is outside this repository; the spec gives its
interface as `create_shader(source_text) -> ShaderHandle`, which "may fail
with CompileError containing the backend's diagnostic". -/

/-- Backend compile failure, carrying the diagnostic. -/
structure CompileError where
  diagnostic : String
deriving Repr, DecidableEq

/-- Modelled from the spec: the backend's `create_shader` routine (§6), which
is not part of this repository's sources.  `accepts` stands for the backend's
compile judgement; on acceptance it allocates like `Assets.add`, otherwise it
fails with a `CompileError`. -/
def create_shader (accepts : String → Bool) (a : Assets) (source : String) :
    Except CompileError (Nat × Assets) :=
  if accepts source then Except.ok (a.add source) else Except.error ⟨source⟩

/-- Modelled from the spec: `get_or_insert` run against the fallible backend.
The control flow is that of `ShaderCache::get_or_insert`, with the infallible
`shaders.add` replaced by `create_shader`; on failure no insertion is reached
and the failure is returned to the caller. -/
def ShaderCache.get_or_insertE (accepts : String → Bool) (c : ShaderCache)
    (a : Assets) (source : String) :
    Except CompileError Nat × ShaderCache × Assets :=
  match cacheLookup c.cache source with
  | some handle => (Except.ok handle, c, a)
  | none =>
    match create_shader accepts a source with
    | Except.error e => (Except.error e, c, a)
    | Except.ok r => (Except.ok r.1, ⟨cacheInsert c.cache source r.1⟩, r.2)

/-- C2: when the backend rejects a not-yet-cached source, `get_or_insert`
surfaces the `CompileError` to the caller and caches nothing for that source;
in every other case the lookup succeeds, as a hit or as a successful insert. -/
theorem get_or_insert_surfaces_compile_error (accepts : String → Bool)
    (c : ShaderCache) (a : Assets) (s : String) :
    (accepts s = false → cacheLookup c.cache s = none →
      (ShaderCache.get_or_insertE accepts c a s).1 = Except.error ⟨s⟩
      ∧ (ShaderCache.get_or_insertE accepts c a s).2.1 = c
      ∧ cacheLookup (ShaderCache.get_or_insertE accepts c a s).2.1.cache s = none)
    ∧ ((accepts s = true ∨ ∃ v, cacheLookup c.cache s = some v) →
      ∃ h, (ShaderCache.get_or_insertE accepts c a s).1 = Except.ok h) := by
  constructor
  · intro hrej hm
    refine ⟨?_, ?_, ?_⟩ <;>
      simp [ShaderCache.get_or_insertE, create_shader, hm, hrej]
  · intro hok
    cases hm : cacheLookup c.cache s with
    | some v =>
      exact ⟨v, by simp [ShaderCache.get_or_insertE, hm]⟩
    | none =>
      rcases hok with hacc | ⟨v, hv⟩
      · exact ⟨a.nextId, by simp [ShaderCache.get_or_insertE, create_shader,
          hm, hacc, Assets.add]⟩
      · rw [hv] at hm
        cases hm

/-- Witness for C2: a rejecting backend on an empty cache yields the error and
an untouched cache; an accepting backend yields a handle. -/
theorem get_or_insert_surfaces_compile_error_witness :
    ((fun _ : String => false) "bad" = false
      ∧ cacheLookup (ShaderCache.mk []).cache "bad" = none
      ∧ (ShaderCache.get_or_insertE (fun _ => false) (ShaderCache.mk [])
          (Assets.mk 0 []) "bad").1 = Except.error ⟨"bad"⟩
      ∧ cacheLookup (ShaderCache.get_or_insertE (fun _ => false)
          (ShaderCache.mk []) (Assets.mk 0 []) "bad").2.1.cache "bad" = none)
    ∧ ∃ h, (ShaderCache.get_or_insertE (fun _ => true) (ShaderCache.mk [])
          (Assets.mk 0 []) "ok").1 = Except.ok h :=
  ⟨⟨rfl, rfl,
      ((get_or_insert_surfaces_compile_error (fun _ => false)
        (ShaderCache.mk []) (Assets.mk 0 []) "bad").1 rfl rfl).1,
      ((get_or_insert_surfaces_compile_error (fun _ => false)
        (ShaderCache.mk []) (Assets.mk 0 []) "bad").1 rfl rfl).2.2⟩,
    (get_or_insert_surfaces_compile_error (fun _ => true)
        (ShaderCache.mk []) (Assets.mk 0 []) "ok").2 (Or.inl rfl)⟩

/-! ## Expression/Value model (spec §3, §4.1)

The expression module (`ExprWriter` and friends) is not part of the provided
sources — only its call sites in the example are — so it is modelled from the
spec: a small typed expression tree with literals, named properties, binary
operations and random generation, rendered deterministically into
shader-source text with canonical number formatting. -/

/-- Modelled from the spec: the static scalar type of an expression
(float or vector of 2/3/4 floats). -/
inductive ScalarType
  | float
  | vec2
  | vec3
  | vec4
deriving Repr, DecidableEq

/-- Modelled from the spec: binary operators of the expression model. -/
inductive BinOp
  | add
  | sub
  | mul
  | div
deriving Repr, DecidableEq

/-- Modelled from the spec: the immutable typed expression tree
`Literal(value) | Property(name) | BinaryOp(op, lhs, rhs) | Random(type)`.
A literal carries its scalar type and its rational components. -/
inductive Expr
  | lit (ty : ScalarType) (components : List ℚ)
  | prop (name : String)
  | bin (op : BinOp) (lhs rhs : Expr)
  | rand (ty : ScalarType)
deriving Repr, DecidableEq

/-- WGSL spelling of a scalar type. -/
def ScalarType.text : ScalarType → String
  | ScalarType.float => "f32"
  | ScalarType.vec2 => "vec2<f32>"
  | ScalarType.vec3 => "vec3<f32>"
  | ScalarType.vec4 => "vec4<f32>"

/-- WGSL spelling of a binary operator. -/
def BinOp.text : BinOp → String
  | BinOp.add => "+"
  | BinOp.sub => "-"
  | BinOp.mul => "*"
  | BinOp.div => "/"

/-- Canonical number formatting: a rational is printed from its reduced
numerator and denominator, so equal values print identically. -/
def renderNum (q : ℚ) : String :=
  toString q.num ++ "/" ++ toString q.den

/-- Modelled from the spec: `render(expr) -> String`, the deterministic
rendering of an expression into shader-source text. -/
def Expr.render : Expr → String
  | Expr.lit ty cs =>
      ty.text ++ "(" ++ String.intercalate "," (cs.map renderNum) ++ ")"
  | Expr.prop n => "properties." ++ n
  | Expr.bin op a b =>
      "(" ++ a.render ++ ")" ++ op.text ++ "(" ++ b.render ++ ")"
  | Expr.rand ty => "frand_" ++ ty.text ++ "()"

/-- Structural identity of two expression trees, node by node. -/
def Expr.structEq : Expr → Expr → Bool
  | Expr.lit t cs, Expr.lit t' cs' => decide (t = t') && decide (cs = cs')
  | Expr.prop n, Expr.prop n' => decide (n = n')
  | Expr.bin op a b, Expr.bin op' a' b' =>
      decide (op = op') && Expr.structEq a a' && Expr.structEq b b'
  | Expr.rand t, Expr.rand t' => decide (t = t')
  | _, _ => false

lemma structEq_eq : ∀ e₁ e₂ : Expr, Expr.structEq e₁ e₂ = true → e₁ = e₂ := by
  intro e₁
  induction e₁ with
  | lit t cs =>
    intro e₂ h
    cases e₂ <;> simp only [Expr.structEq, Bool.and_eq_true, decide_eq_true_eq,
      Bool.false_eq_true] at h
    obtain ⟨rfl, rfl⟩ := h
    rfl
  | prop n =>
    intro e₂ h
    cases e₂ <;> simp only [Expr.structEq, decide_eq_true_eq,
      Bool.false_eq_true] at h
    rw [h]
  | bin op a b iha ihb =>
    intro e₂ h
    cases e₂ <;> simp only [Expr.structEq, Bool.and_eq_true, decide_eq_true_eq,
      Bool.false_eq_true] at h
    obtain ⟨⟨rfl, ha⟩, hb⟩ := h
    rw [iha _ ha, ihb _ hb]
  | rand t =>
    intro e₂ h
    cases e₂ <;> simp only [Expr.structEq, decide_eq_true_eq,
      Bool.false_eq_true] at h
    rw [h]

/-- C5: the expression renderer is deterministic — any two structurally
identical expression trees (in particular, the same tree rendered twice)
render to byte-identical shader-source text. -/
theorem render_deterministic (e₁ e₂ : Expr)
    (h : Expr.structEq e₁ e₂ = true) : e₁.render = e₂.render := by
  rw [structEq_eq e₁ e₂ h]

/-- Witness for C5 on a concrete tree combining a literal, a property and a
random node. -/
theorem render_deterministic_witness :
    Expr.structEq
        (Expr.bin BinOp.add (Expr.lit ScalarType.float [3/2])
          (Expr.bin BinOp.mul (Expr.prop "speed") (Expr.rand ScalarType.vec3)))
        (Expr.bin BinOp.add (Expr.lit ScalarType.float [3/2])
          (Expr.bin BinOp.mul (Expr.prop "speed") (Expr.rand ScalarType.vec3)))
        = true
    ∧ (Expr.bin BinOp.add (Expr.lit ScalarType.float [3/2])
          (Expr.bin BinOp.mul (Expr.prop "speed") (Expr.rand ScalarType.vec3))).render
      = (Expr.bin BinOp.add (Expr.lit ScalarType.float [3/2])
          (Expr.bin BinOp.mul (Expr.prop "speed") (Expr.rand ScalarType.vec3))).render :=
  ⟨by simp [Expr.structEq], render_deterministic _ _ (by simp [Expr.structEq])⟩

/-! ## Spawner (spec §3, §4.5)

The spawner implementation is not part of the provided sources — only its
call sites `SpawnerSettings::once`, `with_emit_on_start` and
`EffectSpawner::reset` in the example are — so it is modelled from the spec:
state `{ mode: Once | Rate, emit_on_start, active, accumulator }`, a per-tick
step, and an external `reset` trigger.  Exact rationals stand in for the
implementation's `f32` timing values. -/

/-- Modelled from the spec: spawner mode, a one-shot burst of `count`
particles or continuous emission at `rate` particles per second. -/
inductive SpawnMode
  | once (count : ℚ)
  | rate (rate : ℚ)
deriving Repr, DecidableEq

/-- Modelled from the spec: authored spawner configuration. -/
structure SpawnerSettings where
  mode : SpawnMode
  emit_on_start : Bool
deriving Repr, DecidableEq

/-- `SpawnerSettings::once(count)`: a one-shot burst, emitting on start by
default. -/
def SpawnerSettings.once (count : ℚ) : SpawnerSettings :=
  ⟨SpawnMode.once count, true⟩

/-- `SpawnerSettings::with_emit_on_start(b)`. -/
def SpawnerSettings.with_emit_on_start (s : SpawnerSettings) (b : Bool) :
    SpawnerSettings :=
  { s with emit_on_start := b }

/-- Modelled from the spec: runtime spawner state.  `active` is the
`Emitting`/`Idle` flag; `accumulator` carries the fractional particle count
in `Rate` mode. -/
structure EffectSpawner where
  settings : SpawnerSettings
  accumulator : ℚ
  active : Bool
deriving Repr, DecidableEq

/-- Construction: `emit_on_start` decides whether the initial emission is
already triggered or waits for an explicit `reset`. -/
def EffectSpawner.new (s : SpawnerSettings) : EffectSpawner :=
  ⟨s, 0, s.emit_on_start⟩

/-- `EffectSpawner::reset()`: externally trigger (re-)emission. -/
def EffectSpawner.reset (sp : EffectSpawner) : EffectSpawner :=
  { sp with active := true }

/-- Modelled from the spec: one simulation tick of duration `dt`.  An idle
spawner emits nothing.  In `Once` mode a triggered spawner emits the whole
burst and returns to idle.  In `Rate` mode `rate * dt` accumulates and each
whole unit of the accumulator emits one particle and is subtracted off. -/
def EffectSpawner.tick (sp : EffectSpawner) (dt : ℚ) : Nat × EffectSpawner :=
  if sp.active then
    match sp.settings.mode with
    | SpawnMode.once count => ((⌊count⌋).toNat, { sp with active := false })
    | SpawnMode.rate r =>
        ((⌊sp.accumulator + r * dt⌋).toNat,
          { sp with accumulator :=
              sp.accumulator + r * dt - ((⌊sp.accumulator + r * dt⌋).toNat : ℚ) })
  else (0, sp)

/-- A sequence of ticks: the list of emission counts and the final state. -/
def EffectSpawner.tickSeq (sp : EffectSpawner) : List ℚ → List Nat × EffectSpawner
  | [] => ([], sp)
  | dt :: rest =>
    ((sp.tick dt).1 :: ((sp.tick dt).2.tickSeq rest).1,
      ((sp.tick dt).2.tickSeq rest).2)

/-- An idle spawner emits nothing and does not change state, over any
sequence of ticks. -/
lemma tickSeq_inactive : ∀ (dts : List ℚ) (sp : EffectSpawner),
    sp.active = false → sp.tickSeq dts = (List.replicate dts.length 0, sp) := by
  intro dts
  induction dts with
  | nil =>
    intro sp h
    rfl
  | cons dt rest ih =>
    intro sp h
    simp [EffectSpawner.tickSeq, EffectSpawner.tick, h, ih sp h,
      List.replicate_succ]

/-- Conservation in `Rate` mode: emitted particles plus the remaining
accumulator equal the accumulated `rate * time`, and the accumulator stays in
`[0, 1)`. -/
lemma tickSeq_rate (R : ℚ) (hR : 0 ≤ R) :
    ∀ (dts : List ℚ) (sp : EffectSpawner),
      sp.settings.mode = SpawnMode.rate R → sp.active = true →
      0 ≤ sp.accumulator → sp.accumulator < 1 → (∀ dt ∈ dts, 0 ≤ dt) →
      (((sp.tickSeq dts).1.sum : ℚ) + (sp.tickSeq dts).2.accumulator
          = sp.accumulator + R * dts.sum)
        ∧ 0 ≤ (sp.tickSeq dts).2.accumulator
        ∧ (sp.tickSeq dts).2.accumulator < 1 := by
  intro dts
  induction dts with
  | nil =>
    intro sp hm ha h0 h1 hd
    simp [EffectSpawner.tickSeq]
    exact ⟨h0, h1⟩
  | cons dt rest ih =>
    intro sp hm ha h0 h1 hd
    have hdt : 0 ≤ dt := hd dt (by simp)
    have hacc : 0 ≤ sp.accumulator + R * dt :=
      add_nonneg h0 (mul_nonneg hR hdt)
    have hfl : (0 : ℤ) ≤ ⌊sp.accumulator + R * dt⌋ := Int.floor_nonneg.mpr hacc
    have hcast : (((⌊sp.accumulator + R * dt⌋).toNat : ℚ))
        = ((⌊sp.accumulator + R * dt⌋ : ℤ) : ℚ) := by
      exact_mod_cast Int.toNat_of_nonneg hfl
    have hstep : sp.tick dt
        = ((⌊sp.accumulator + R * dt⌋).toNat,
            { sp with accumulator :=
                sp.accumulator + R * dt
                  - ((⌊sp.accumulator + R * dt⌋).toNat : ℚ) }) := by
      simp [EffectSpawner.tick, ha, hm]
    have hfrac0 : 0 ≤ sp.accumulator + R * dt
        - ((⌊sp.accumulator + R * dt⌋).toNat : ℚ) := by
      rw [hcast]
      exact sub_nonneg.mpr (Int.floor_le _)
    have hfrac1 : sp.accumulator + R * dt
        - ((⌊sp.accumulator + R * dt⌋).toNat : ℚ) < 1 := by
      rw [hcast]
      linarith [Int.lt_floor_add_one (sp.accumulator + R * dt)]
    have hrest := ih ({ sp with accumulator :=
        sp.accumulator + R * dt - ((⌊sp.accumulator + R * dt⌋).toNat : ℚ) })
      hm ha hfrac0 hfrac1 (fun d hdm => hd d (by simp [hdm]))
    obtain ⟨hsum, hge, hlt⟩ := hrest
    refine ⟨?_, ?_, ?_⟩
    · simp only [EffectSpawner.tickSeq, hstep, List.sum_cons, List.sum_cons]
      push_cast
      push_cast at hsum
      linarith [hsum]
    · simp only [EffectSpawner.tickSeq, hstep]
      exact hge
    · simp only [EffectSpawner.tickSeq, hstep]
      exact hlt

/-- C6: in `Rate` mode each tick adds `R * dt` to the accumulator, emits its
floor of whole units and subtracts them; consequently, starting from an empty
accumulator, the total emitted over any sequence of nonnegative tick
durations equals `⌊R * T⌋` exactly (in particular within one unit), however
`T` is divided into ticks. -/
theorem spawner_rate_no_drift (sp : EffectSpawner) (R : ℚ) (dts : List ℚ)
    (hm : sp.settings.mode = SpawnMode.rate R) (ha : sp.active = true)
    (hR : 0 ≤ R) (h0 : sp.accumulator = 0) (hd : ∀ dt ∈ dts, 0 ≤ dt) :
    (∀ dt, (sp.tick dt).1 = (⌊sp.accumulator + R * dt⌋).toNat
      ∧ (sp.tick dt).2.accumulator
          = sp.accumulator + R * dt - ((⌊sp.accumulator + R * dt⌋).toNat : ℚ))
    ∧ (((sp.tickSeq dts).1.sum : ℤ) = ⌊R * dts.sum⌋) := by
  constructor
  · intro dt
    constructor
    · simp [EffectSpawner.tick, ha, hm]
    · simp [EffectSpawner.tick, ha, hm]
  · obtain ⟨hsum, hge, hlt⟩ :=
      tickSeq_rate R hR dts sp hm ha (le_of_eq h0.symm)
        (by rw [h0]; norm_num) hd
    rw [h0, zero_add] at hsum
    symm
    rw [Int.floor_eq_iff]
    constructor
    · rw [Int.cast_natCast]
      linarith
    · rw [Int.cast_natCast]
      linarith

/-- Witness for C6: rate 3/2 over ticks of 1/2 + 1/2 + 1 seconds emits
`⌊3⌋ = 3` particles in total. -/
theorem spawner_rate_no_drift_witness :
    (0 : ℚ) ≤ 3/2
    ∧ ((((EffectSpawner.new
          (SpawnerSettings.mk (SpawnMode.rate (3/2)) true)).tickSeq
            [1/2, 1/2, 1]).1.sum : ℤ)
        = ⌊(3/2 : ℚ) * ([1/2, 1/2, 1] : List ℚ).sum⌋) :=
  ⟨by norm_num,
    (spawner_rate_no_drift
      (EffectSpawner.new (SpawnerSettings.mk (SpawnMode.rate (3/2)) true))
      (3/2) [1/2, 1/2, 1] rfl rfl (by norm_num) rfl
      (by intro dt hdt; fin_cases hdt <;> norm_num)).2⟩

/-- C7: in `Once` mode with burst size `count`, the tick following `reset()`
emits exactly `count` particles, and every subsequent tick emits zero until
the next `reset()`. -/
theorem spawner_once_burst (sp : EffectSpawner) (count : ℕ) (dt : ℚ)
    (dts : List ℚ) (hm : sp.settings.mode = SpawnMode.once (count : ℚ)) :
    ((sp.reset.tick dt).1 = count)
    ∧ ((sp.reset.tick dt).2.tickSeq dts).1 = List.replicate dts.length 0 := by
  constructor
  · simp [EffectSpawner.tick, EffectSpawner.reset, hm]
  · have hact : ((sp.reset.tick dt).2).active = false := by
      simp [EffectSpawner.tick, EffectSpawner.reset, hm]
    rw [tickSeq_inactive dts _ hact]

/-- Witness for C7: a burst of 30 fires once after `reset`, then two further
ticks emit nothing. -/
theorem spawner_once_burst_witness :
    (((EffectSpawner.new (SpawnerSettings.once 30)).reset.tick (1/10)).1 = 30)
    ∧ ((((EffectSpawner.new (SpawnerSettings.once 30)).reset.tick
          (1/10)).2.tickSeq [1, 2]).1 = List.replicate 2 0) :=
  ⟨(spawner_once_burst (EffectSpawner.new (SpawnerSettings.once 30)) 30
      (1/10) [1, 2] (by norm_num [SpawnerSettings.once, EffectSpawner.new])).1,
    (spawner_once_burst (EffectSpawner.new (SpawnerSettings.once 30)) 30
      (1/10) [1, 2] (by norm_num [SpawnerSettings.once, EffectSpawner.new])).2⟩

/-- C8: a spawner constructed with `emit_on_start = false` is idle and emits
nothing on any tick until the first `reset()` (the state after those ticks is
the construction state itself); with `emit_on_start = true` construction
starts the spawner active, so in `Once` mode its very first tick emits the
burst without any `reset()`. -/
theorem spawner_emit_on_start_gate (s : SpawnerSettings) (dts : List ℚ)
    (n : ℕ) (dt : ℚ) :
    (s.emit_on_start = false →
      ((EffectSpawner.new s).tickSeq dts).1 = List.replicate dts.length 0
      ∧ ((EffectSpawner.new s).tickSeq dts).2 = EffectSpawner.new s)
    ∧ (s.emit_on_start = true →
      (EffectSpawner.new s).active = true
      ∧ (s.mode = SpawnMode.once (n : ℚ) →
          ((EffectSpawner.new s).tick dt).1 = n)) := by
  constructor
  · intro h
    have hact : (EffectSpawner.new s).active = false := by
      simp [EffectSpawner.new, h]
    rw [tickSeq_inactive dts _ hact]
    exact ⟨rfl, rfl⟩
  · intro h
    constructor
    · simp [EffectSpawner.new, h]
    · intro hm
      simp [EffectSpawner.tick, EffectSpawner.new, h, hm]

/-- Witness for C8: the example's `once(30).with_emit_on_start(false)` spawner
emits nothing over two ticks, while the default `once(30)` (emit on start)
emits its burst on the very first tick. -/
theorem spawner_emit_on_start_gate_witness :
    (((EffectSpawner.new ((SpawnerSettings.once 30).with_emit_on_start
        false)).tickSeq [1, 2]).1 = List.replicate 2 0)
    ∧ ((EffectSpawner.new (SpawnerSettings.once 30)).tick 1).1 = 30 :=
  ⟨((spawner_emit_on_start_gate
      ((SpawnerSettings.once 30).with_emit_on_start false) [1, 2] 30 1).1
      rfl).1,
    ((spawner_emit_on_start_gate (SpawnerSettings.once 30) [1, 2] 30 1).2
      rfl).2 (by norm_num [SpawnerSettings.once])⟩

/-! ## Conform-to-sphere modifier (spec §4.2)

The modifier's compiled shader code is not part of the provided sources —
only the configuration literals in the example are — so the per-particle
update is modelled from the spec: the acceleration points from the particle
toward the sphere surface, is scaled by `attraction_accel`, and the induced
speed is clamped by `max_attraction_speed`.  The step is taken along the
radial line through the sphere's origin (which sits at coordinate 0), with
exact rationals standing in for the shader's `f32` values; the optional
stickiness parameters (set to `None` for the example's repulsor) are not
involved in the claim and are left out. -/

/-- Modelled from the spec: configuration of the conform-to-sphere force. -/
structure ConformToSphereModifier where
  radius : ℚ
  attraction_accel : ℚ
  max_attraction_speed : ℚ
deriving Repr, DecidableEq

/-- Modelled from the spec: one simulated update step of the conform-to-sphere
force on a particle at signed radial position `x` with radial velocity `v`.
The unit direction toward the surface is outward for a particle strictly
inside the sphere and inward for one outside; `attraction_accel` scales it,
the induced velocity is clamped to `max_attraction_speed` in magnitude, and
the position integrates the clamped velocity over `dt`.  Returns the new
position and velocity. -/
def conformStep (m : ConformToSphereModifier) (x v dt : ℚ) : ℚ × ℚ :=
  let toSurface : ℚ :=
    if |x| < m.radius then (if x < 0 then -1 else 1)
    else (if x < 0 then 1 else -1)
  let v' := max (-m.max_attraction_speed)
    (min m.max_attraction_speed (v + m.attraction_accel * toSurface * dt))
  (x + v' * dt, v')

/-- Counterexample to C9 as stated: a particle strictly inside the sphere
(position 1, radius 2, so not on the surface) with positive
`attraction_accel` is pushed toward the surface, i.e. strictly *farther* from
the origin, not closer. -/
theorem conform_positive_accel_inside_cex :
    (ConformToSphereModifier.mk 2 1 10).attraction_accel > 0
    ∧ |(1 : ℚ)| ≠ (ConformToSphereModifier.mk 2 1 10).radius
    ∧ ¬ |(conformStep (ConformToSphereModifier.mk 2 1 10) 1 0 (1/10)).1|
        < |(1 : ℚ)| := by
  refine ⟨by norm_num, by norm_num, ?_⟩
  norm_num [conformStep]
  rw [abs_of_pos (by norm_num : (0 : ℚ) < 101/100)]
  norm_num

/-- C9 (amended): for a test particle at rest strictly *outside* the sphere,
one simulated step with positive `attraction_accel` moves it strictly closer
to the origin — provided the clamped step cannot overshoot past the mirror
point (`max_attraction_speed * dt < 2 * x`) — with the induced speed clamped
by `max_attraction_speed`; with negative `attraction_accel` one step moves it
strictly farther from the origin. -/
theorem conform_sign_outside (m : ConformToSphereModifier) (x dt : ℚ)
    (hr : 0 ≤ m.radius) (hx : m.radius < x) (hdt : 0 < dt)
    (hv : 0 < m.max_attraction_speed) :
    (0 < m.attraction_accel → m.max_attraction_speed * dt < 2 * x →
      |(conformStep m x 0 dt).1| < |x|)
    ∧ (m.attraction_accel < 0 → |x| < |(conformStep m x 0 dt).1|)
    ∧ |(conformStep m x 0 dt).2| ≤ m.max_attraction_speed := by
  have hx0 : 0 < x := lt_of_le_of_lt hr hx
  have habs : |x| = x := abs_of_pos hx0
  have hnin : ¬(|x| < m.radius) := by
    rw [habs]
    exact not_lt.mpr hx.le
  have hneg : ¬(x < 0) := not_lt.mpr hx0.le
  simp only [conformStep, if_neg hnin, if_neg hneg, zero_add]
  have hv1 : m.attraction_accel * -1 * dt = -(m.attraction_accel * dt) := by
    ring
  rw [hv1]
  refine ⟨?_, ?_, ?_⟩
  · intro hA hover
    have hAdt : 0 < m.attraction_accel * dt := mul_pos hA hdt
    have hmin : min m.max_attraction_speed (-(m.attraction_accel * dt))
        = -(m.attraction_accel * dt) := min_eq_right (by linarith)
    rw [hmin]
    have hub : max (-m.max_attraction_speed) (-(m.attraction_accel * dt)) < 0 :=
      max_lt (by linarith) (by linarith)
    have hlb : -m.max_attraction_speed
        ≤ max (-m.max_attraction_speed) (-(m.attraction_accel * dt)) :=
      le_max_left _ _
    have h1 : max (-m.max_attraction_speed) (-(m.attraction_accel * dt)) * dt
        < 0 := mul_neg_of_neg_of_pos hub hdt
    have h2 : -m.max_attraction_speed * dt
        ≤ max (-m.max_attraction_speed) (-(m.attraction_accel * dt)) * dt :=
      mul_le_mul_of_nonneg_right hlb hdt.le
    rw [neg_mul] at h2
    rw [habs, abs_lt]
    constructor
    · linarith
    · linarith
  · intro hA
    have hpos : 0 < -(m.attraction_accel * dt) := by
      have := mul_pos (neg_pos.mpr hA) hdt
      rw [neg_mul] at this
      exact this
    have hminpos : 0 < min m.max_attraction_speed (-(m.attraction_accel * dt)) :=
      lt_min hv hpos
    have hvel : 0 < max (-m.max_attraction_speed)
        (min m.max_attraction_speed (-(m.attraction_accel * dt))) :=
      lt_of_lt_of_le hminpos (le_max_right _ _)
    have hmove : 0 < max (-m.max_attraction_speed)
        (min m.max_attraction_speed (-(m.attraction_accel * dt))) * dt :=
      mul_pos hvel hdt
    rw [habs, abs_of_pos (by linarith : (0 : ℚ) < x + max (-m.max_attraction_speed)
        (min m.max_attraction_speed (-(m.attraction_accel * dt))) * dt)]
    linarith
  · apply abs_le.mpr
    constructor
    · exact le_max_left _ _
    · exact max_le (by linarith) (min_le_left _ _)

/-- Witness for C9 (amended): radius 1, particle at 2, `dt = 1/2`, speed cap
1; acceleration 3 pulls it strictly closer, acceleration −3 pushes it
strictly farther. -/
theorem conform_sign_outside_witness :
    ((0 : ℚ) ≤ 1 ∧ (1 : ℚ) < 2 ∧ (0 : ℚ) < 1/2 ∧ (0 : ℚ) < 1
      ∧ (0 : ℚ) < 3 ∧ (1 : ℚ) * (1/2) < 2 * 2)
    ∧ |(conformStep (ConformToSphereModifier.mk 1 3 1) 2 0 (1/2)).1| < |(2 : ℚ)|
    ∧ |(2 : ℚ)| < |(conformStep (ConformToSphereModifier.mk 1 (-3) 1) 2 0 (1/2)).1| :=
  ⟨by norm_num,
    (conform_sign_outside (ConformToSphereModifier.mk 1 3 1) 2 (1/2)
      (by norm_num) (by norm_num) (by norm_num) (by norm_num)).1
      (by norm_num) (by norm_num),
    (conform_sign_outside (ConformToSphereModifier.mk 1 (-3) 1) 2 (1/2)
      (by norm_num) (by norm_num) (by norm_num) (by norm_num)).2.1
      (by norm_num)⟩

end Hanabi
